import Mathlib

set_option maxRecDepth 20000

/-!
# Verification of the voice_agent streaming pipeline

A shallow embedding of the core of the `voice_agent` repository:

* `LLMService.generate_stream`            (src/voice_agent/services/llm.py)
* `stream_response_with_tts`              (src/voice_agent/server.py)
* `process_audio_safe`                    (src/voice_agent/server.py)
* `VADService` (segmenter)                (src/voice_agent/services/vad.py)

Modelling conventions:

* External collaborators (the Ollama token stream, the TTS engine, the STT
  engine, the Silero classifier) are passed in as explicit parameters: a
  finite token list plus a failure flag for the generator, total functions
  for TTS / classification, and `Except`-valued outcomes for calls whose
  only relevant behaviour is "returned normally" vs "raised".
* Python strings are Lean `String`s; `str.strip()`, `str.split()` and
  `c in s` are implemented over the character list (`pyStrip`, `pySplit`,
  `containsAnyChar`) with Python's semantics on the ASCII whitespace
  appearing here.
* PCM audio is a `List Int` of 16-bit sample values.  The float32
  conversion in `process_audio` divides by 32768 and `_get_speech_bytes`
  multiplies back; the embedding keeps the integer samples and counts a
  byte length of `2 *` the sample count, matching `np.int16.tobytes`.
* The RMS energy gate `rms < self.min_audio_level` and the classifier
  verdict `speech_prob > self.threshold` are floating-point tests on the
  frame contents; the embedding abstracts each as a Boolean-valued
  function of the frame (`quietOf`, `classify`).  Claims quantify over
  these functions.
* `asyncio` locking and timing/logging statements have no effect on the
  modelled state and are omitted.
-/

/-- ASCII whitespace (the whitespace occurring in this pipeline's data). -/
def isPySpace (c : Char) : Bool := c = ' ' ∨ c = '\t' ∨ c = '\n' ∨ c = '\r'

/-- Drop leading and trailing whitespace from a character list. -/
def pyStripL (l : List Char) : List Char :=
  ((l.dropWhile isPySpace).reverse.dropWhile isPySpace).reverse

/-- Python `str.strip()` (whitespace on both ends). -/
def pyStrip (s : String) : String := ⟨pyStripL s.data⟩

/-- Helper for `pySplit`: scan the characters, collecting the current word
in `acc` (reversed). -/
def pySplitGo : List Char → List Char → List (List Char)
  | [], acc => if acc = [] then [] else [acc.reverse]
  | c :: cs, acc =>
    if isPySpace c then
      if acc = [] then pySplitGo cs [] else acc.reverse :: pySplitGo cs []
    else pySplitGo cs (c :: acc)

/-- Python `str.split()` with no argument: split on whitespace runs,
dropping empty fields. -/
def pySplit (s : String) : List String := (pySplitGo s.data []).map (fun l => ⟨l⟩)

/-- Python `any(char in s for char in cs)`. -/
def containsAnyChar (s : String) (cs : List Char) : Bool :=
  cs.any (fun c => s.data.contains c)

/-- `sentence_endings = {'.', '!', '?'}` (same set in llm.py and server.py). -/
def sentenceEndings : List Char := ['.', '!', '?']

/-- `clause_endings = {',', ':', ';'}` (server.py). -/
def clauseEndings : List Char := [',', ':', ';']

/-! ## LLMService state and `generate_stream` (services/llm.py) -/

/-- One entry of `full_conversation_archive` as built by
`LLMService._archive_message`.  The wall-clock `timestamp` field is not
modelled (real time). -/
structure ArchiveEntry where
  exchangeNumber : Nat
  role : String
  content : String
deriving Repr, DecidableEq

/-- The mutable fields of `LLMService` that `generate_stream` touches.
`conversation_history` entries are (role, content) pairs standing for the
LangChain `HumanMessage`/`AIMessage` objects. -/
structure LLMState where
  conversationHistory : List (String × String)
  fullConversationArchive : List ArchiveEntry
  exchangeCount : Nat
deriving Repr, DecidableEq

/-- `LLMService._archive_message` (the `output.json` dump is I/O and not
modelled). -/
def archiveMessage (role content : String) (st : LLMState) : LLMState :=
  { st with fullConversationArchive :=
      st.fullConversationArchive ++ [⟨st.exchangeCount, role, content⟩] }

/-- `LLMService._build_messages`: appends the user message to the history,
archives it, and builds the prompt for the external LLM (the returned
message list itself is consumed by the external collaborator and is not
modelled). -/
def buildMessages (userMessage : String) (st : LLMState) : LLMState :=
  archiveMessage "user" userMessage
    { st with conversationHistory := st.conversationHistory ++ [("user", userMessage)] }

/-- The body of the `async for` loop of `generate_stream` for one token.
The accumulator is `(full_response, sentence_buffer, yielded so far)`.
`if not token: continue` is the empty-token guard; the
`hasattr(chunk, 'content')` extraction is identity on our string tokens. -/
def genStreamStep (acc : String × String × List String) (t : String) :
    String × String × List String :=
  let (full, buf, ys) := acc
  if t = "" then (full, buf, ys)
  else
    let full := full ++ t
    let buf := buf ++ t
    if containsAnyChar t sentenceEndings then
      let sentence := pyStrip buf
      if sentence ≠ "" ∧ 5 < sentence.length then (full, "", ys ++ [sentence])
      else (full, buf, ys)
    else (full, buf, ys)

/-- The token loop of `generate_stream` over the tokens the source yields
before it ends (or raises). -/
def genStreamLoop (tokens : List String) : String × String × List String :=
  tokens.foldl genStreamStep ("", "", [])

/-- The fallback sentence yielded by `generate_stream`'s `except` handler. -/
def apologyText : String := "I apologize, could you please repeat that?"

/-- `LLMService.generate_stream`.  The external token source is modelled as
the finite list `tokens` it yields followed by either normal end of stream
(`sourceFails = false`) or an exception at the next pull
(`sourceFails = true`).  Returns the yielded sentences and the updated
service state.

Control flow from the source: `exchange_count += 1`, then
`_build_messages`, then the token loop; on an exception anywhere in the
`try` block the `except` handler yields the apology and the generator
ends, skipping the remainder yield and the archive append. -/
def generate_stream (tokens : List String) (sourceFails : Bool)
    (userMessage : String) (st : LLMState) : List String × LLMState :=
  let st := { st with exchangeCount := st.exchangeCount + 1 }
  let st := buildMessages userMessage st
  let (full, buf, ys) := genStreamLoop tokens
  if sourceFails then
    (ys ++ [apologyText], st)
  else
    let ys := if pyStrip buf ≠ "" ∧ 3 < (pyStrip buf).length then ys ++ [pyStrip buf] else ys
    let st :=
      if pyStrip full ≠ "" then
        archiveMessage "assistant" full
          { st with conversationHistory := st.conversationHistory ++ [("assistant", full)] }
      else st
    (ys, st)

/-! ## Streaming response orchestrator: `stream_response_with_tts` (server.py)

The websocket events sent through `safe_send` that carry chunk data are
modelled explicitly; `safe_send` itself never raises (it catches all
exceptions internally, server.py lines 480-488).  The TTS engine is a
total function `tts : String → List Nat` giving the audio bytes for a
chunk; a synthesis exception is caught by the orchestrator and replaced by
`b""` (empty bytes), so a failing call is modelled by `tts` returning
`[]`.  Timing, logging and the trailing stats lookup carry no chunk data;
the stats message is kept as an opaque event. -/

/-- A websocket event emitted by `stream_response_with_tts`.  In-loop
`audio_chunk` messages carry no `is_final` key (read as `false` by the
client); the remainder path sends `is_final: True`. -/
inductive Ev where
  | status (s : String)
  | textChunk (text : String) (index : Nat)
  | audioChunk (data : List Nat) (index : Nat) (isFinal : Bool)
  | transcript (role : String) (text : String)
  | stats
deriving Repr, DecidableEq

/-- The `async for token in session_llm.generate_stream(...)` loop of
`stream_response_with_tts`: accumulate tokens in `text_buffer`, flush a
chunk when the tiered punctuation/word-count policy fires.  Returns the
events emitted by the loop, the leftover `text_buffer`, and the final
`chunk_index`. -/
def streamLoop (tts : String → List Nat) :
    List String → String → Nat → List Ev × String × Nat
  | [], buf, idx => ([], buf, idx)
  | t :: rest, buf, idx =>
    let buf := buf ++ t
    let wordCount := (pySplit buf).length
    let shouldSynthesize :=
      containsAnyChar buf sentenceEndings
        || (3 ≤ wordCount && containsAnyChar buf clauseEndings)
        || 6 ≤ wordCount
    if shouldSynthesize ∧ pyStrip buf ≠ "" then
      let chunkText := pyStrip buf
      let pre := if idx = 0 then [Ev.status "speaking"] else []
      let audio := tts chunkText
      let audioEvs := if 0 < audio.length then [Ev.audioChunk audio idx false] else []
      let (evs, buf', idx') := streamLoop tts rest "" (idx + 1)
      (pre ++ [Ev.textChunk chunkText idx] ++ audioEvs ++ evs, buf', idx')
    else
      streamLoop tts rest buf idx

/-- `stream_response_with_tts` (server.py lines 745-921) as the ordered
list of websocket events it sends for a successfully produced token
stream: the in-loop flushes, the remainder flush (whose `audio_chunk`
carries `is_final: True`), the assistant transcript of
`full_response`, and the stats message. -/
def stream_response_with_tts (tts : String → List Nat) (tokens : List String) :
    List Ev :=
  let (evs, buf, idx) := streamLoop tts tokens "" 0
  let finalEvs :=
    if pyStrip buf ≠ "" then
      let chunkText := pyStrip buf
      let pre := if idx = 0 then [Ev.status "speaking"] else []
      let audio := tts chunkText
      pre ++ [Ev.textChunk chunkText idx] ++
        (if 0 < audio.length then [Ev.audioChunk audio idx true] else [])
    else []
  evs ++ finalEvs ++ [Ev.transcript "assistant" (String.join tokens), Ev.stats]

/-- The indices carried by the `text_chunk` events, in emission order.
Every flushed chunk sends exactly one `text_chunk`, so these are the
emitted chunk indices. -/
def textChunkIndices (evs : List Ev) : List Nat :=
  evs.filterMap fun e =>
    match e with
    | .textChunk _ i => some i
    | _ => none

/-- The texts carried by the `text_chunk` events, with their indices. -/
def textChunks (evs : List Ev) : List (String × Nat) :=
  evs.filterMap fun e =>
    match e with
    | .textChunk t i => some (t, i)
    | _ => none

/-- The indices of `audio_chunk` events sent with `is_final: True`. -/
def finalAudioIndices (evs : List Ev) : List Nat :=
  evs.filterMap fun e =>
    match e with
    | .audioChunk _ i true => some i
    | _ => none

/-! ## Voice activity segmenter: `VADService` (services/vad.py)

`CHUNK_SIZE = 512` samples per analysis frame.  The thresholds computed in
`__init__` (`min_speech_samples`, `min_silence_samples`,
`max_speech_samples`, `min_speech_bytes`) are carried in a parameter
record; the debounce counts `_min_consecutive_speech = 3` and
`_min_consecutive_silence = 4` are the hard-coded instance constants
(the latter is set but never read by `process_audio`).

`process_audio` assumes an initialised model (`self.model is None` raises
otherwise); the per-frame energy gate and the classifier verdict are the
abstract predicates `quietOf` and `classify` on the frame's samples.  The
third component of the results below counts how many frames were sent to
the Silero model (`self.model(...)` calls), which the source performs only
after the energy gate passes. -/

/-- `VADService.CHUNK_SIZE`. -/
def CHUNK_SIZE : Nat := 512

/-- `self._min_consecutive_speech = 3`. -/
def minConsecutiveSpeech : Nat := 3

/-- `self._min_consecutive_silence = 4` (assigned in `__init__`, never read
by `process_audio`). -/
def minConsecutiveSilence : Nat := 4

/-- The threshold attributes computed in `VADService.__init__`. -/
structure VADParams where
  minSpeechSamples : Nat
  minSilenceSamples : Nat
  maxSpeechSamples : Nat
  minSpeechBytes : Nat
deriving Repr, DecidableEq

/-- The mutable per-session state of a `VADService` instance. -/
structure VADState where
  isSpeaking : Bool
  speechBuffer : List (List Int)
  speechSamples : Nat
  silenceSamples : Nat
  pendingAudio : List Int
  processingLock : Bool
  consecutiveSpeech : Nat
  consecutiveSilence : Nat
deriving Repr, DecidableEq

/-- `VADService.reset` (also the state right after `__init__`). -/
def VADState.reset : VADState :=
  { isSpeaking := false, speechBuffer := [], speechSamples := 0,
    silenceSamples := 0, pendingAudio := [], processingLock := false,
    consecutiveSpeech := 0, consecutiveSilence := 0 }

/-- `VADService.set_processing`. -/
def set_processing (isProcessing : Bool) (st : VADState) : VADState :=
  let st := { st with processingLock := isProcessing }
  if isProcessing then
    { st with speechBuffer := [], speechSamples := 0, silenceSamples := 0,
              isSpeaking := false, consecutiveSpeech := 0, consecutiveSilence := 0 }
  else st

/-- `VADService._get_speech_bytes`: concatenate the buffered frames and
drop the result when shorter than `min_speech_bytes` (each sample is two
bytes in `np.int16.tobytes`, hence the factor 2). -/
def getSpeechBytes (p : VADParams) (st : VADState) : Option (List Int) :=
  if st.speechBuffer = [] then none
  else
    let samples := st.speechBuffer.flatten
    if 2 * samples.length < p.minSpeechBytes then none else some samples

/-- The `while len(self._pending_audio) >= self.CHUNK_SIZE` loop of
`VADService.process_audio`, written with a structural fuel argument so
that it evaluates by kernel reduction.  Each iteration consumes
`CHUNK_SIZE` samples of `_pending_audio`, so any `fuel` of at least
`st.pendingAudio.length` (what `vadLoop` passes) makes the `0` case
unreachable; the `0` case returns the same value as the loop exit, so
exhausted fuel and an emptied queue agree.  Returns the
`(speech_ended, speech_audio)` pair, the state at return, and the number
of classifier invocations. -/
def vadLoopFuel (p : VADParams) (quietOf classify : List Int → Bool) :
    Nat → VADState → (Bool × Option (List Int)) × VADState × Nat
  | 0, st => ((false, none), st, 0)
  | fuel + 1, st =>
    if CHUNK_SIZE ≤ st.pendingAudio.length then
      let chunk := st.pendingAudio.take CHUNK_SIZE
      let st := { st with pendingAudio := st.pendingAudio.drop CHUNK_SIZE }
      if quietOf chunk then
        -- audio too quiet: treated as silence without invoking the model
        let st := { st with consecutiveSpeech := 0,
                            consecutiveSilence := st.consecutiveSilence + 1 }
        if st.isSpeaking then
          let st := { st with silenceSamples := st.silenceSamples + CHUNK_SIZE,
                              speechBuffer := st.speechBuffer ++ [chunk] }
          if p.minSilenceSamples ≤ st.silenceSamples then
            let speechBytes := getSpeechBytes p st
            let st := { st with isSpeaking := false, speechBuffer := [],
                                speechSamples := 0, silenceSamples := 0 }
            match speechBytes with
            | some bytes => ((true, some bytes), st, 0)
            | none => vadLoopFuel p quietOf classify fuel st
          else vadLoopFuel p quietOf classify fuel st
        else vadLoopFuel p quietOf classify fuel st
      else if classify chunk then
        -- classifier invoked, speech verdict
        let st := { st with consecutiveSpeech := st.consecutiveSpeech + 1,
                            consecutiveSilence := 0, silenceSamples := 0,
                            speechSamples := st.speechSamples + CHUNK_SIZE,
                            speechBuffer := st.speechBuffer ++ [chunk] }
        let st :=
          if ¬ st.isSpeaking ∧ minConsecutiveSpeech ≤ st.consecutiveSpeech ∧
              p.minSpeechSamples ≤ st.speechSamples
          then { st with isSpeaking := true } else st
        let totalSamples := (st.speechBuffer.map List.length).sum
        if st.isSpeaking ∧ p.maxSpeechSamples ≤ totalSamples then
          let speechBytes := getSpeechBytes p st
          let st := { st with isSpeaking := false, speechBuffer := [],
                              speechSamples := 0, silenceSamples := 0,
                              consecutiveSpeech := 0 }
          match speechBytes with
          | some bytes => ((true, some bytes), st, 1)
          | none =>
            let (r, st', n) := vadLoopFuel p quietOf classify fuel st
            (r, st', n + 1)
        else
          let (r, st', n) := vadLoopFuel p quietOf classify fuel st
          (r, st', n + 1)
      else
        -- classifier invoked, silence verdict
        let st := { st with consecutiveSpeech := 0,
                            consecutiveSilence := st.consecutiveSilence + 1 }
        if st.isSpeaking then
          let st := { st with silenceSamples := st.silenceSamples + CHUNK_SIZE,
                              speechBuffer := st.speechBuffer ++ [chunk] }
          if p.minSilenceSamples ≤ st.silenceSamples then
            let speechBytes := getSpeechBytes p st
            let st := { st with isSpeaking := false, speechBuffer := [],
                                speechSamples := 0, silenceSamples := 0 }
            match speechBytes with
            | some bytes => ((true, some bytes), st, 1)
            | none =>
              let (r, st', n) := vadLoopFuel p quietOf classify fuel st
              (r, st', n + 1)
          else
            let (r, st', n) := vadLoopFuel p quietOf classify fuel st
            (r, st', n + 1)
        else
          let st :=
            if 5 < st.consecutiveSilence ∧ st.speechBuffer ≠ []
            then { st with speechBuffer := [], speechSamples := 0 } else st
          let (r, st', n) := vadLoopFuel p quietOf classify fuel st
          (r, st', n + 1)
    else
      ((false, none), st, 0)

/-- The frame loop of `process_audio`, with the fuel instantiated so the
whole queue is processed. -/
def vadLoop (p : VADParams) (quietOf classify : List Int → Bool)
    (st : VADState) : (Bool × Option (List Int)) × VADState × Nat :=
  vadLoopFuel p quietOf classify st.pendingAudio.length st

/-- `VADService.process_audio`: the lock check precedes all state access;
otherwise the new samples are appended to `_pending_audio` and the frame
loop runs. -/
def process_audio (p : VADParams) (quietOf classify : List Int → Bool)
    (st : VADState) (input : List Int) : (Bool × Option (List Int)) × VADState × Nat :=
  if st.processingLock then ((false, none), st, 0)
  else vadLoop p quietOf classify { st with pendingAudio := st.pendingAudio ++ input }

/-- A sequence of consecutive `process_audio` calls: the per-call results,
the final state, and the total number of classifier invocations. -/
def runProcessAudio (p : VADParams) (quietOf classify : List Int → Bool)
    (st : VADState) : List (List Int) → List (Bool × Option (List Int)) × VADState × Nat
  | [] => ([], st, 0)
  | input :: rest =>
    let (r, st', n) := process_audio p quietOf classify st input
    let (rs, st'', m) := runProcessAudio p quietOf classify st' rest
    (r :: rs, st'', n + m)

/-! ## Turn controller: `process_audio_safe` (server.py lines 663-742)

External calls are modelled by their outcomes: `decodeRes` is the decoded
audio when the base64 decode of a non-empty payload succeeds and yields
non-empty bytes (`none` covers the three early returns for empty payload,
decode failure, and empty decode); `transcribeRes` is the result of
`stt_service.transcribe` (`Except.error` when it raises);
`streamRes` is the outcome of `stream_response_with_tts`
(`Except.error` when it raises — TTS failures are caught inside it and do
not raise, see `stream_response_with_tts` above).  `safe_send` never
raises (server.py lines 480-488), so sends do not alter control flow.

The VAD call itself is the embedded `process_audio`; a raised VAD error is
caught and returns before the lock is taken, which in the embedding is the
total function's normal return.  The function returns the final VAD
state.  The `try`/`finally` around the turn guarantees
`set_processing(False)` runs on every path out of the `try` block:
transcription error (caught, early return), empty transcript (turn
skipped), streaming error (caught), or normal completion. -/

/-- The `try` body of `process_audio_safe` after the lock is taken.  The
result records whether an exception escapes the `try` block (it never
does: both fallible calls are individually wrapped). -/
def turnBody (transcribeRes : Except Unit String) (streamRes : Except Unit Unit) :
    Except Unit Unit :=
  match transcribeRes with
  | .error _ => .ok ()          -- caught: error message sent, early return
  | .ok transcript =>
    if pyStrip transcript ≠ "" then
      match streamRes with
      | .error _ => .ok ()      -- caught: error message sent
      | .ok _ => .ok ()
    else .ok ()                 -- empty transcript: turn skipped

/-- `process_audio_safe`: runs the VAD on the decoded audio and, when a
segment closed with audio, locks the segmenter, runs the turn body, and
unlocks in the `finally` clause. -/
def process_audio_safe (p : VADParams) (quietOf classify : List Int → Bool)
    (decodeRes : Option (List Int)) (transcribeRes : Except Unit String)
    (streamRes : Except Unit Unit) (st : VADState) : VADState :=
  match decodeRes with
  | none => st
  | some audioBytes =>
    let ((speechEnded, speechAudio), st, _calls) :=
      process_audio p quietOf classify st audioBytes
    if speechEnded ∧ speechAudio.isSome then
      let st := set_processing true st
      let _body := turnBody transcribeRes streamRes
      -- finally: unlock the VAD after processing completes (any path)
      set_processing false st
    else st

/-! ## Concrete fixtures used by witnesses and counterexamples -/

/-- A demo TTS engine returning one byte of audio for every chunk. -/
def ttsOne : String → List Nat := fun _ => [1]

/-- The token stream of the spec's first chunking scenario. -/
def helloTokens : List String := ["Hello", ",", " how", " are", " you", "?"]

/-- A token stream ending exactly at a sentence boundary. -/
def hiTokens : List String := ["Hi there."]

/-- A fresh `LLMService` conversation state. -/
def llmState0 : LLMState := ⟨[], [], 0⟩

/-- One frame of loud speech-classified samples (see `quietIfZero`,
`classifyAll`). -/
def sFrame : List Int := List.replicate CHUNK_SIZE 1

/-- One frame of quiet samples (all zero). -/
def qFrame : List Int := List.replicate CHUNK_SIZE 0

/-- A demo energy gate: a frame is quiet exactly when its first sample is
zero. -/
def quietIfZero : List Int → Bool := fun f => f.headI = 0

/-- A demo energy gate that never fires. -/
def quietNever : List Int → Bool := fun _ => false

/-- A demo energy gate that always fires. -/
def quietAlways : List Int → Bool := fun _ => true

/-- A demo classifier that reports speech on every frame. -/
def classifyAll : List Int → Bool := fun _ => true

/-- A segmenter state in the middle of an open segment (used to exercise
segment-closing paths with a small buffer). -/
def vadStateSpeaking : VADState :=
  { isSpeaking := true, speechBuffer := [[2, 2]], speechSamples := CHUNK_SIZE,
    silenceSamples := 0, pendingAudio := [], processingLock := false,
    consecutiveSpeech := 3, consecutiveSilence := 0 }

/-- Parameters with a short silence threshold (one frame closes a
segment) and no practical byte floor. -/
def pShortSilence : VADParams := ⟨512, 512, 99999, 1⟩

/-- Parameters whose maximum segment length is 2000 samples, between the
3-frame and 4-frame buffer sizes. -/
def pMax2000 : VADParams := ⟨512, 5120, 2000, 1⟩

/-- Parameters whose maximum segment length is exactly 3 frames. -/
def pMax3Frames : VADParams := ⟨512, 5120, 3 * 512, 1⟩

/-- A locked segmenter state. -/
def vadStateLocked : VADState := { VADState.reset with processingLock := true }

/-! ## Derived notions used in claim statements -/

/-- Slice a sample queue into the `CHUNK_SIZE`-sample analysis frames the
`process_audio` loop would consume from it (the sub-frame remainder is
held for later).  Structural fuel as in `vadLoopFuel`. -/
def chunksFuel : Nat → List Int → List (List Int)
  | 0, _ => []
  | fuel + 1, l =>
    if CHUNK_SIZE ≤ l.length then l.take CHUNK_SIZE :: chunksFuel fuel (l.drop CHUNK_SIZE)
    else []

/-- The analysis frames contained in a sample queue. -/
def chunksOf (l : List Int) : List (List Int) := chunksFuel l.length l

/-- Over a sequence of `process_audio` calls, every analysis frame that
the segmenter would slice out (pending remainder included) passes the
energy gate as quiet. -/
def allCallsQuiet (p : VADParams) (quietOf classify : List Int → Bool)
    (st : VADState) : List (List Int) → Bool
  | [] => true
  | input :: rest =>
    (chunksOf (st.pendingAudio ++ input)).all quietOf &&
      allCallsQuiet p quietOf classify
        (process_audio p quietOf classify st input).2.1 rest

/-- The segmenter state reached from reset after consuming `acc`
consecutive speech-classified frames (closed form used to reason about
continuous-speech runs), with `pending` samples still queued. -/
def speechRunState (p : VADParams) (acc : List (List Int)) (pending : List Int) :
    VADState :=
  { isSpeaking := decide (minConsecutiveSpeech ≤ acc.length ∧
      p.minSpeechSamples ≤ CHUNK_SIZE * acc.length),
    speechBuffer := acc, speechSamples := CHUNK_SIZE * acc.length,
    silenceSamples := 0, pendingAudio := pending, processingLock := false,
    consecutiveSpeech := acc.length, consecutiveSilence := 0 }

/-! ## Theorems -/

/-- C2: while the segmenter is locked (`_processing_lock` set), any number
of consecutive `process_audio` calls, on any inputs and for any energy
gate and classifier, all return `(False, None)`, never invoke the
classifier, and leave the entire segmenter state (including the speech
buffer, all counters, the speaking flag and the pending remainder)
unchanged. -/
theorem locked_process_audio_is_pure_noop (p : VADParams)
    (quietOf classify : List Int → Bool) (st : VADState)
    (inputs : List (List Int)) (h : st.processingLock = true) :
    runProcessAudio p quietOf classify st inputs =
      (inputs.map (fun _ => (false, none)), st, 0) := by
  induction inputs with
  | nil => simp [runProcessAudio]
  | cons input rest ih => simp [runProcessAudio, process_audio, h, ih]

/-- Witness for C2: two concrete calls on a locked state. -/
theorem locked_process_audio_is_pure_noop_witness :
    vadStateLocked.processingLock = true ∧
    runProcessAudio pShortSilence quietIfZero classifyAll vadStateLocked
        [[1, 2, 3], [4]] =
      ([(false, none), (false, none)], vadStateLocked, 0) :=
  ⟨rfl, locked_process_audio_is_pure_noop _ _ _ _ _ rfl⟩

/-- C9: `set_processing(True)` discards the in-progress segment (clears
the buffer, zeroes all four counters, lowers the speaking flag) while
leaving the pending sub-frame remainder untouched, and
`set_processing(False)` changes only the lock flag. -/
theorem set_processing_field_effects (st : VADState) :
    set_processing true st =
      { isSpeaking := false, speechBuffer := [], speechSamples := 0,
        silenceSamples := 0, pendingAudio := st.pendingAudio,
        processingLock := true, consecutiveSpeech := 0,
        consecutiveSilence := 0 } ∧
    set_processing false st = { st with processingLock := false } :=
  ⟨rfl, rfl⟩

/-- C3: whenever a turn begins (the VAD reported a closed segment with
audio, so `set_processing(True)` ran), the lock is released at the end of
`process_audio_safe` on every control path: transcription raising,
streaming raising, empty transcript, and normal completion are all
covered by quantifying over the call outcomes. -/
theorem turn_always_unlocks_segmenter (p : VADParams)
    (quietOf classify : List Int → Bool) (input : List Int)
    (transcribeRes : Except Unit String) (streamRes : Except Unit Unit)
    (st : VADState)
    (hEnded : (process_audio p quietOf classify st input).1.1 = true)
    (hAudio : ((process_audio p quietOf classify st input).1.2).isSome = true) :
    (process_audio_safe p quietOf classify (some input) transcribeRes streamRes
        st).processingLock = false := by
  rcases hre : process_audio p quietOf classify st input with ⟨⟨se, sa⟩, st', n⟩
  rw [hre] at hEnded hAudio
  simp only at hEnded hAudio
  simp [process_audio_safe, hre, hEnded, hAudio, set_processing]

/-- Witness for C3: a segment closes on a quiet frame (the silence
threshold is one frame) and both external calls raise; the lock is still
released. -/
theorem turn_always_unlocks_segmenter_witness :
    (process_audio pShortSilence quietIfZero classifyAll vadStateSpeaking
        qFrame).1.1 = true ∧
    ((process_audio pShortSilence quietIfZero classifyAll vadStateSpeaking
        qFrame).1.2).isSome = true ∧
    (process_audio_safe pShortSilence quietIfZero classifyAll (some qFrame)
        (.error ()) (.error ()) vadStateSpeaking).processingLock = false :=
  ⟨by decide, by decide,
    turn_always_unlocks_segmenter _ _ _ _ _ _ _ (by decide) (by decide)⟩

/-- C5 counterexample: feeding the orchestrator's chunking policy the
token stream `["Hello", ",", " how", " are", " you", "?"]` token by token
flushes TWO chunks, not one: the clause rule (≥ 3 words and a comma in
the buffer) fires at `" are"`, flushing `"Hello, how are"` at index 0,
and the sentence terminal flushes `"you?"` at index 1; no chunk is marked
final (the `is_final` flag is only attached on the trailing-remainder
path, and the remainder is empty here).  This refutes "exactly one chunk
is flushed, its text is `"Hello, how are you?"`, and it is marked
final". -/
theorem hello_scenario_counterexample :
    textChunks (stream_response_with_tts ttsOne helloTokens) =
      [("Hello, how are", 0), ("you?", 1)] ∧
    (textChunks (stream_response_with_tts ttsOne helloTokens)).length ≠ 1 ∧
    finalAudioIndices (stream_response_with_tts ttsOne helloTokens) = [] := by
  decide

/-- C5 amended: on the token stream
`["Hello", ",", " how", " are", " you", "?"]` the chunking policy flushes
exactly two chunks, `"Hello, how are"` (index 0, clause rule at three
words) and `"you?"` (index 1, sentence terminal), each synthesized and
followed by its audio; neither carries `is_final` because the stream ends
with an empty buffer, and the archived transcript is the full
`"Hello, how are you?"`. -/
theorem hello_scenario_event_trace :
    stream_response_with_tts ttsOne helloTokens =
      [Ev.status "speaking", Ev.textChunk "Hello, how are" 0,
       Ev.audioChunk [1] 0 false, Ev.textChunk "you?" 1,
       Ev.audioChunk [1] 1 false,
       Ev.transcript "assistant" "Hello, how are you?", Ev.stats] := by
  decide

/-- C1 counterexample: a run whose token stream ends exactly at a flush
boundary (`["Hi there."]`) emits its only chunk inside the loop, so no
emitted chunk carries `is_final=true` at all — refuting "exactly one
emitted chunk has `is_final=true`, namely the chunk at index N-1". -/
theorem final_flag_missing_counterexample :
    textChunkIndices (stream_response_with_tts ttsOne hiTokens) = [0] ∧
    finalAudioIndices (stream_response_with_tts ttsOne hiTokens) = [] := by
  decide

/-- C7 counterexample: the source yields `"Hi. "` (buffered, too short to
yield) and then fails.  The stream ends with exactly the one fallback
apology chunk, but the partial response `"Hi. "` is NOT appended to the
conversation archive: the archive holds only the user entry, because the
archive append sits inside the `try` block after the token loop and is
skipped when the loop raises. -/
theorem generation_failure_archive_counterexample :
    (generate_stream ["Hi. "] true "u" llmState0).1 = [apologyText] ∧
    (generate_stream ["Hi. "] true "u" llmState0).2.fullConversationArchive =
      [⟨1, "user", "u"⟩] ∧
    (generate_stream ["Hi. "] true "u" llmState0).2.conversationHistory =
      [("user", "u")] := by
  decide

/-- C7 amended: if the generation source fails at any point, the stream
terminates after the sentences already yielded plus exactly one fallback
apology chunk, and the service state is exactly the post-user-archive
state: the partial assistant response is NOT archived (no assistant entry
is appended to the conversation archive or the history on the failure
path). -/
theorem generation_failure_stream_and_archive (tokens : List String)
    (userMessage : String) (st : LLMState) :
    (generate_stream tokens true userMessage st).1 =
      (genStreamLoop tokens).2.2 ++ [apologyText] ∧
    (generate_stream tokens true userMessage st).2 =
      buildMessages userMessage { st with exchangeCount := st.exchangeCount + 1 } := by
  unfold generate_stream
  rcases genStreamLoop tokens with ⟨full, buf, ys⟩
  exact ⟨rfl, rfl⟩

/-- Folding string append from an arbitrary accumulator factors the
accumulator out front. -/
theorem strFoldlAppend (l : List String) :
    ∀ a, l.foldl (· ++ ·) a = a ++ l.foldl (· ++ ·) "" := by
  induction l with
  | nil => intro a; simp
  | cons b t ih =>
    intro a
    simp only [List.foldl_cons]
    rw [ih (a ++ b), ih ("" ++ b), String.append_assoc]
    simp

/-- `String.join` distributes over the head of the list. -/
theorem strJoinCons (a : String) (l : List String) :
    String.join (a :: l) = a ++ String.join l := by
  simp only [String.join, List.foldl_cons]
  rw [strFoldlAppend l ("" ++ a), strFoldlAppend l ""]
  simp

/-- `full_response` accumulates every token of the stream. -/
theorem genStreamLoopFull (tokens : List String) :
    ∀ full buf ys,
      (List.foldl genStreamStep (full, buf, ys) tokens).1 =
        full ++ String.join tokens := by
  induction tokens with
  | nil => intro full buf ys; simp [String.join]
  | cons t rest ih =>
    intro full buf ys
    rw [List.foldl_cons, strJoinCons]
    by_cases ht : t = ""
    · subst ht
      simp only [genStreamStep, if_pos rfl]
      rw [ih]
      simp
    · simp only [genStreamStep, if_neg ht]
      split
      · split
        · rw [ih, String.append_assoc]
        · rw [ih, String.append_assoc]
      · rw [ih, String.append_assoc]

/-- C10: in `generate_stream`, a sentence whose stripped length is at most
5 is not yielded at its boundary and its text stays in the buffer; a
trailing remainder whose stripped length is at most 3 is never yielded;
yet every token reaches the archived full response (whose content is
`String.join tokens`), so the concatenation of yielded chunks can be a
strict subset of the archived assistant message (final conjunct: a
concrete run where the yields miss the `" ok"` tail that is archived). -/
theorem short_fragment_buffering_policy :
    (∀ full buf ys t, containsAnyChar t sentenceEndings = true →
        (pyStrip (buf ++ t)).length ≤ 5 →
        genStreamStep (full, buf, ys) t = (full ++ t, buf ++ t, ys)) ∧
    (∀ tokens userMessage st,
        (pyStrip (genStreamLoop tokens).2.1).length ≤ 3 →
        (generate_stream tokens false userMessage st).1 = (genStreamLoop tokens).2.2) ∧
    (∀ tokens userMessage st, pyStrip (String.join tokens) ≠ "" →
        (generate_stream tokens false userMessage st).2.fullConversationArchive =
          st.fullConversationArchive ++
            [⟨st.exchangeCount + 1, "user", userMessage⟩,
             ⟨st.exchangeCount + 1, "assistant", String.join tokens⟩]) ∧
    ((generate_stream ["Hello there.", " ok"] false "u" llmState0).1 =
        ["Hello there."] ∧
      (generate_stream ["Hello there.", " ok"] false "u"
          llmState0).2.fullConversationArchive =
        [⟨1, "user", "u"⟩, ⟨1, "assistant", "Hello there. ok"⟩] ∧
      String.join ["Hello there."] ≠ "Hello there. ok") := by
  refine ⟨?_, ?_, ?_, by decide⟩
  · intro full buf ys t h1 h2
    have ht : t ≠ "" := by
      intro h
      subst h
      simp [containsAnyChar] at h1
    simp only [genStreamStep, if_neg ht, h1, if_pos]
    rw [if_neg]
    rintro ⟨-, hlt⟩
    omega
  · intro tokens userMessage st h
    unfold generate_stream
    rcases hgl : genStreamLoop tokens with ⟨full, buf, ys⟩
    rw [hgl] at h
    simp only at h
    simp only [hgl]
    have hc : ¬(pyStrip buf ≠ "" ∧ 3 < (pyStrip buf).length) := by
      rintro ⟨-, hlt⟩
      omega
    simp [hc]
  · intro tokens userMessage st h
    unfold generate_stream
    rcases hgl : genStreamLoop tokens with ⟨full, buf, ys⟩
    have hfull : full = String.join tokens := by
      have h2 := genStreamLoopFull tokens "" "" []
      rw [show List.foldl genStreamStep ("", "", []) tokens = genStreamLoop tokens from rfl,
        hgl] at h2
      simpa using h2
    subst hfull
    simp [if_pos h, buildMessages, archiveMessage]

/-- Witness for C10: `"Hi."` (3 chars) is withheld at its boundary;
tokens `["Hi"]` leave a 2-char remainder that is never yielded; the run
on `["Hi."]` archives the assistant message. -/
theorem short_fragment_buffering_policy_witness :
    containsAnyChar "." sentenceEndings = true ∧
    (pyStrip ("Hi" ++ ".")).length ≤ 5 ∧
    genStreamStep ("Hi", "Hi", []) "." = ("Hi" ++ ".", "Hi" ++ ".", []) ∧
    (pyStrip (genStreamLoop ["Hi"]).2.1).length ≤ 3 ∧
    (generate_stream ["Hi"] false "u" llmState0).1 = (genStreamLoop ["Hi"]).2.2 ∧
    pyStrip (String.join ["Hi."]) ≠ "" ∧
    (generate_stream ["Hi."] false "u" llmState0).2.fullConversationArchive =
      llmState0.fullConversationArchive ++
        [⟨llmState0.exchangeCount + 1, "user", "u"⟩,
         ⟨llmState0.exchangeCount + 1, "assistant", String.join ["Hi."]⟩] :=
  ⟨by decide, by decide,
    short_fragment_buffering_policy.1 "Hi" "Hi" [] "." (by decide) (by decide),
    by decide,
    short_fragment_buffering_policy.2.1 ["Hi"] "u" llmState0 (by decide),
    by decide,
    short_fragment_buffering_policy.2.2.1 ["Hi."] "u" llmState0 (by decide)⟩

/-- Inside the orchestrator loop, the emitted `text_chunk` indices are
exactly the consecutive ascending run from the starting `chunk_index` to
the final one, and no in-loop `audio_chunk` carries `is_final`. -/
theorem streamLoopChunkSpec (tts : String → List Nat) (tokens : List String) :
    ∀ buf idx,
      textChunkIndices (streamLoop tts tokens buf idx).1 =
        List.range' idx ((streamLoop tts tokens buf idx).2.2 - idx) ∧
      finalAudioIndices (streamLoop tts tokens buf idx).1 = [] ∧
      idx ≤ (streamLoop tts tokens buf idx).2.2 := by
  induction tokens with
  | nil => intro buf idx; simp [streamLoop, textChunkIndices, finalAudioIndices]
  | cons t rest ih =>
    intro buf idx
    simp only [streamLoop]
    split
    · obtain ⟨h1, h2, h3⟩ := ih "" (idx + 1)
      rcases hsl : streamLoop tts rest "" (idx + 1) with ⟨evs', buf', idx'⟩
      rw [hsl] at h1 h2 h3
      simp only at h1 h2 h3
      simp only [hsl, textChunkIndices, finalAudioIndices, List.filterMap_append,
        List.filterMap_cons, List.filterMap_nil, apply_ite (List.filterMap _),
        ite_self] at h1 h2 ⊢
      refine ⟨?_, ?_, by omega⟩
      · rw [show idx' - idx = (idx' - (idx + 1)) + 1 by omega]
        simp [List.range', h1, h2]
      · simp [h1, h2]
    · exact ih (buf ++ t) idx

/-- C1 amended: for every token stream and TTS behaviour, the emitted
chunk indices (one `text_chunk` per flushed chunk, in emission order)
form the contiguous strictly increasing sequence `0..N-1`; at most one
emitted chunk carries `is_final=true`, and when present it is the chunk
at index `N-1`.  The flag can be absent: it is attached only on the
trailing-remainder path (see `final_flag_missing_counterexample`). -/
theorem chunk_index_contiguity (tts : String → List Nat) (tokens : List String) :
    textChunkIndices (stream_response_with_tts tts tokens) =
      List.range (textChunkIndices (stream_response_with_tts tts tokens)).length ∧
    (finalAudioIndices (stream_response_with_tts tts tokens) = [] ∨
      finalAudioIndices (stream_response_with_tts tts tokens) =
        [(textChunkIndices (stream_response_with_tts tts tokens)).length - 1]) := by
  obtain ⟨h1, h2, h3⟩ := streamLoopChunkSpec tts tokens "" 0
  rcases hsl : streamLoop tts tokens "" 0 with ⟨evs, buf, idx⟩
  rw [hsl] at h1 h2 h3
  simp only at h1 h2 h3
  unfold stream_response_with_tts
  rw [hsl]
  simp only [Nat.sub_zero] at h1
  by_cases hb : pyStrip buf ≠ ""
  · simp only [hb, if_true, if_pos]
    simp only [textChunkIndices, finalAudioIndices, List.filterMap_append,
      List.filterMap_cons, List.filterMap_nil, apply_ite (List.filterMap _),
      ite_self] at h1 h2 ⊢
    rw [h1, h2]
    simp only [List.append_nil, List.nil_append]
    constructor
    · simp [hb, ← List.range_eq_range', ← List.range_succ, List.length_range]
    · by_cases ha : 0 < (tts (pyStrip buf)).length
      · right
        simp [ha, hb, List.length_range]
      · left
        simp [ha, hb]
  · simp only [hb, if_false]
    simp only [textChunkIndices, finalAudioIndices, List.filterMap_append,
      List.filterMap_cons, List.filterMap_nil, apply_ite (List.filterMap _),
      ite_self] at h1 h2 ⊢
    rw [h1, h2]
    simp [← List.range_eq_range', List.length_range]

/-- Frames of `CHUNK_SIZE` samples flatten to `CHUNK_SIZE` times their
count. -/
theorem flattenLen (fs : List (List Int))
    (h : ∀ f ∈ fs, f.length = CHUNK_SIZE) :
    fs.flatten.length = CHUNK_SIZE * fs.length := by
  induction fs with
  | nil => simp
  | cons f t ih =>
    simp only [List.flatten_cons, List.length_append, List.length_cons]
    rw [h f (by simp), ih (fun g hg => h g (by simp [hg]))]
    ring

/-- Every sample queue splits into its `chunksFuel` frames (each of
`CHUNK_SIZE` samples) followed by a sub-frame tail. -/
theorem chunksFuelDecomp :
    ∀ fuel (l : List Int), l.length ≤ fuel →
      ∃ tail, l = (chunksFuel fuel l).flatten ++ tail ∧
        tail.length < CHUNK_SIZE ∧
        ∀ f ∈ chunksFuel fuel l, f.length = CHUNK_SIZE := by
  intro fuel
  induction fuel with
  | zero =>
    intro l hl
    have hCS : CHUNK_SIZE = 512 := rfl
    exact ⟨l, by simp [chunksFuel], by omega, by simp [chunksFuel]⟩
  | succ fuel ih =>
    intro l hl
    have hCS : CHUNK_SIZE = 512 := rfl
    by_cases h : CHUNK_SIZE ≤ l.length
    · obtain ⟨tail, he, hlt, hall⟩ :=
        ih (l.drop CHUNK_SIZE) (by simp only [List.length_drop]; omega)
      refine ⟨tail, ?_, hlt, ?_⟩
      · simp only [chunksFuel, if_pos h, List.flatten_cons, List.append_assoc]
        rw [← he, List.take_append_drop]
      · intro f hf
        simp only [chunksFuel, if_pos h, List.mem_cons] at hf
        rcases hf with rfl | hf
        · rw [List.length_take]
          omega
        · exact hall f hf
    · exact ⟨l, by simp [chunksFuel, if_neg h], by omega,
        by simp [chunksFuel, if_neg h]⟩

/-- While not speaking, a run of quiet frames only bumps the silence
debounce counters: no segment is returned, the classifier is never
invoked, and the queue is drained to the sub-frame tail. -/
theorem quietRun (p : VADParams) (quietOf classify : List Int → Bool) :
    ∀ (fs : List (List Int)) (tail : List Int) (fuel : Nat) (st : VADState),
      st.pendingAudio = fs.flatten ++ tail →
      (∀ f ∈ fs, f.length = CHUNK_SIZE) →
      (∀ f ∈ fs, quietOf f = true) →
      tail.length < CHUNK_SIZE →
      st.isSpeaking = false →
      st.pendingAudio.length ≤ fuel →
      vadLoopFuel p quietOf classify fuel st =
        ((false, none),
         { st with pendingAudio := tail,
                   consecutiveSpeech :=
                     if fs = [] then st.consecutiveSpeech else 0,
                   consecutiveSilence := st.consecutiveSilence + fs.length },
         0) := by
  intro fs
  induction fs with
  | nil =>
    intro tail fuel st hpend hlen hq htail hsp hfuel
    simp only [List.flatten_nil, List.nil_append] at hpend
    have hnot : ¬ CHUNK_SIZE ≤ st.pendingAudio.length := by
      rw [hpend]; omega
    subst hpend
    cases fuel with
    | zero => simp [vadLoopFuel]
    | succ fuel =>
      rw [vadLoopFuel, if_neg hnot]
      simp
  | cons f fs' ih =>
    intro tail fuel st hpend hlen hq htail hsp hfuel
    have hCS : CHUNK_SIZE = 512 := rfl
    have hflen : f.length = CHUNK_SIZE := hlen f (by simp)
    have hplen : CHUNK_SIZE ≤ st.pendingAudio.length := by
      rw [hpend, List.flatten_cons, List.append_assoc, List.length_append, hflen]
      omega
    cases fuel with
    | zero => omega
    | succ fuel =>
      have htake : st.pendingAudio.take CHUNK_SIZE = f := by
        rw [hpend, List.flatten_cons, List.append_assoc, List.take_left' hflen]
      have hdrop : st.pendingAudio.drop CHUNK_SIZE = fs'.flatten ++ tail := by
        rw [hpend, List.flatten_cons, List.append_assoc, List.drop_left' hflen]
      rw [vadLoopFuel, if_pos hplen]
      simp only [htake, hdrop, hq f (by simp), if_pos, hsp, Bool.false_eq_true,
        if_false]
      rw [ih tail fuel _ (by simp [hdrop]) (fun g hg => hlen g (by simp [hg]))
        (fun g hg => hq g (by simp [hg])) htail (by simp [hsp])
        (by rw [← hdrop]; simp only [List.length_drop]; omega)]
      simp only [Prod.mk.injEq, true_and, and_true, VADState.mk.injEq, ite_self]
      simp
      omega

/-- One `process_audio` call whose frames are all below the energy gate:
returns `(False, None)`, zero classifier invocations, and the speaking
flag and lock stay down. -/
theorem processAudioQuiet (p : VADParams) (quietOf classify : List Int → Bool)
    (st : VADState) (input : List Int)
    (hsp : st.isSpeaking = false) (hlock : st.processingLock = false)
    (hq : (chunksOf (st.pendingAudio ++ input)).all quietOf = true) :
    (process_audio p quietOf classify st input).1 = (false, none) ∧
    (process_audio p quietOf classify st input).2.2 = 0 ∧
    (process_audio p quietOf classify st input).2.1.isSpeaking = false ∧
    (process_audio p quietOf classify st input).2.1.processingLock = false := by
  obtain ⟨tail, he, hlt, hall⟩ :=
    chunksFuelDecomp (st.pendingAudio ++ input).length (st.pendingAudio ++ input)
      le_rfl
  unfold process_audio
  rw [if_neg (by simp [hlock])]
  unfold vadLoop
  have hrun := quietRun p quietOf classify (chunksOf (st.pendingAudio ++ input))
    tail (st.pendingAudio ++ input).length
    { st with pendingAudio := st.pendingAudio ++ input }
    he hall (fun f hf => List.all_eq_true.mp hq f hf) hlt hsp le_rfl
  have hproj : ({ st with pendingAudio := st.pendingAudio ++ input } :
      VADState).pendingAudio = st.pendingAudio ++ input := rfl
  rw [hproj, hrun]
  simp [hsp, hlock]

/-- Generalisation of the C4 run over any quiet-start state. -/
theorem quietCallsRun (p : VADParams) (quietOf classify : List Int → Bool) :
    ∀ (inputs : List (List Int)) (st : VADState),
      st.isSpeaking = false → st.processingLock = false →
      allCallsQuiet p quietOf classify st inputs = true →
      (runProcessAudio p quietOf classify st inputs).1 =
        inputs.map (fun _ => (false, none)) ∧
      (runProcessAudio p quietOf classify st inputs).2.2 = 0 := by
  intro inputs
  induction inputs with
  | nil => intro st h1 h2 h3; simp [runProcessAudio]
  | cons input rest ih =>
    intro st h1 h2 h3
    simp only [allCallsQuiet, Bool.and_eq_true] at h3
    obtain ⟨hq, hrest⟩ := h3
    obtain ⟨r1, r2, r3, r4⟩ := processAudioQuiet p quietOf classify st input h1 h2 hq
    rcases hpa : process_audio p quietOf classify st input with ⟨r, st', n⟩
    rw [hpa] at r1 r2 r3 r4 hrest
    simp only at r1 r2 r3 r4 hrest
    obtain ⟨ih1, ih2⟩ := ih st' r3 r4 hrest
    simp [runProcessAudio, hpa, r1, r2, ih1, ih2]

/-- C4: from the reset segmenter state, for any classifier behaviour, a
sequence of `process_audio` calls in which every sliced analysis frame is
below the energy gate (`allCallsQuiet`) never returns a segment — every
call returns `(False, None)` — and the classifier is never invoked (the
total invocation count is 0). -/
theorem energy_gate_blocks_segments (p : VADParams)
    (quietOf classify : List Int → Bool) (inputs : List (List Int))
    (hq : allCallsQuiet p quietOf classify VADState.reset inputs = true) :
    (runProcessAudio p quietOf classify VADState.reset inputs).1 =
      inputs.map (fun _ => (false, none)) ∧
    (runProcessAudio p quietOf classify VADState.reset inputs).2.2 = 0 :=
  quietCallsRun p quietOf classify inputs VADState.reset rfl rfl hq

/-- Witness for C4: one frame of zeros under an always-quiet gate with
a permissive classifier. -/
theorem energy_gate_blocks_segments_witness :
    allCallsQuiet pShortSilence quietAlways classifyAll VADState.reset
        [qFrame] = true ∧
    (runProcessAudio pShortSilence quietAlways classifyAll VADState.reset
        [qFrame]).1 = [qFrame].map (fun _ => (false, none)) ∧
    (runProcessAudio pShortSilence quietAlways classifyAll VADState.reset
        [qFrame]).2.2 = 0 :=
  ⟨by decide,
    (energy_gate_blocks_segments pShortSilence quietAlways classifyAll [qFrame]
      (by decide)).1,
    (energy_gate_blocks_segments pShortSilence quietAlways classifyAll [qFrame]
      (by decide)).2⟩

/-- The buffered sample count is `CHUNK_SIZE` per buffered frame. -/
theorem sumLen (fs : List (List Int)) (h : ∀ f ∈ fs, f.length = CHUNK_SIZE) :
    (fs.map List.length).sum = CHUNK_SIZE * fs.length := by
  rw [← List.length_flatten]
  exact flattenLen fs h

/-- C6 counterexample: with `max_speech_samples = 2000`, three
speech-classified frames open a segment (1536 buffered samples), and a
fourth, quiet frame pushes the buffer to 2048 samples — at and beyond the
maximum — yet `process_audio` returns `(False, None)` and the segment
stays open: the max-duration check sits only in the speech-classified
branch, so reaching the boundary on a quiet/silence frame does NOT
force-close the segment. -/
theorem max_duration_quiet_frame_counterexample :
    (runProcessAudio pMax2000 quietIfZero classifyAll VADState.reset
        [sFrame, sFrame, sFrame, qFrame]).1 =
      [(false, none), (false, none), (false, none), (false, none)] ∧
    (runProcessAudio pMax2000 quietIfZero classifyAll VADState.reset
        [sFrame, sFrame, sFrame, qFrame]).2.1.isSpeaking = true ∧
    ((runProcessAudio pMax2000 quietIfZero classifyAll VADState.reset
        [sFrame, sFrame, sFrame, qFrame]).2.1.speechBuffer.map
          List.length).sum = 2048 ∧
    pMax2000.maxSpeechSamples ≤ 2048 := by
  refine ⟨by decide, by decide, by decide, by decide⟩

/-- One speech-classified frame while the buffered total stays below the
maximum: the frame is buffered, the debounce counters advance, and the
loop continues on the remaining queue (one classifier invocation). -/
theorem speechStep (p : VADParams) (quietOf classify : List Int → Bool)
    (acc : List (List Int)) (f rest : List Int) (fuel : Nat)
    (hflen : f.length = CHUNK_SIZE)
    (hqf : quietOf f = false) (hcf : classify f = true)
    (hacc : ∀ g ∈ acc, g.length = CHUNK_SIZE)
    (hmax : CHUNK_SIZE * (acc.length + 1) < p.maxSpeechSamples) :
    vadLoopFuel p quietOf classify (fuel + 1) (speechRunState p acc (f ++ rest)) =
      (fun r => (r.1, r.2.1, r.2.2 + 1))
        (vadLoopFuel p quietOf classify fuel (speechRunState p (acc ++ [f]) rest)) := by
  have hCS : CHUNK_SIZE = 512 := rfl
  have hguard : CHUNK_SIZE ≤ (speechRunState p acc (f ++ rest)).pendingAudio.length := by
    simp only [speechRunState, List.length_append]
    omega
  have htake : (speechRunState p acc (f ++ rest)).pendingAudio.take CHUNK_SIZE = f := by
    simp only [speechRunState]
    exact List.take_left' hflen
  have hdrop : (speechRunState p acc (f ++ rest)).pendingAudio.drop CHUNK_SIZE = rest := by
    simp only [speechRunState]
    exact List.drop_left' hflen
  rw [vadLoopFuel, if_pos hguard, htake, hdrop]
  rw [if_neg (show ¬ quietOf f = true by simp [hqf]), if_pos hcf]
  simp only [speechRunState]
  have hlen1 : (acc ++ [f]).length = acc.length + 1 := by simp
  have hmul : CHUNK_SIZE * (acc.length + 1) = CHUNK_SIZE * acc.length + CHUNK_SIZE := by
    ring
  have hmemlen : ∀ g ∈ acc ++ [f], g.length = CHUNK_SIZE := by
    intro g hg
    rcases List.mem_append.mp hg with h | h
    · exact hacc g h
    · simp only [List.mem_singleton] at h
      subst h
      exact hflen
  have hsum : (List.map List.length (acc ++ [f])).sum = CHUNK_SIZE * (acc.length + 1) := by
    rw [sumLen (acc ++ [f]) hmemlen, hlen1]
  have hmaxn : ¬ p.maxSpeechSamples ≤ CHUNK_SIZE * acc.length + CHUNK_SIZE := by omega
  have hsumAcc : (List.map List.length acc).sum = CHUNK_SIZE * acc.length :=
    sumLen acc hacc
  have hmaxn2 : ¬ p.maxSpeechSamples ≤ (List.map List.length acc).sum + f.length := by
    rw [hsumAcc, hflen]
    omega
  by_cases hb : minConsecutiveSpeech ≤ acc.length ∧
      p.minSpeechSamples ≤ CHUNK_SIZE * acc.length
  · have hC1 : minConsecutiveSpeech ≤ acc.length + 1 := by omega
    have hC2 : p.minSpeechSamples ≤ CHUNK_SIZE * acc.length + CHUNK_SIZE := by omega
    simp [speechRunState, hlen1, hmul, hb.1, hb.2, hC1, hC2, hsum, hmaxn, hmaxn2]
  · by_cases hC : minConsecutiveSpeech ≤ acc.length + 1 ∧
        p.minSpeechSamples ≤ CHUNK_SIZE * acc.length + CHUNK_SIZE
    · simp [speechRunState, hlen1, hmul, hb, hC.1, hC.2, hsum, hmaxn, hmaxn2]
    · simp [speechRunState, hlen1, hmul, hb, hC, hsum, hmaxn, hmaxn2]

/-- One speech-classified frame that brings the buffered total to the
maximum: the debounce (already satisfied) keeps or raises the speaking
flag, the max-duration check fires, and the segment is returned as the
concatenation of all buffered frames, with the state reset. -/
theorem speechStepClose (p : VADParams) (quietOf classify : List Int → Bool)
    (acc : List (List Int)) (f rest : List Int) (fuel : Nat)
    (hflen : f.length = CHUNK_SIZE)
    (hqf : quietOf f = false) (hcf : classify f = true)
    (hacc : ∀ g ∈ acc, g.length = CHUNK_SIZE)
    (hsp1 : minConsecutiveSpeech ≤ acc.length + 1)
    (hsp2 : p.minSpeechSamples ≤ CHUNK_SIZE * (acc.length + 1))
    (hmax : p.maxSpeechSamples ≤ CHUNK_SIZE * (acc.length + 1))
    (hbytes : p.minSpeechBytes ≤ 2 * (CHUNK_SIZE * (acc.length + 1))) :
    vadLoopFuel p quietOf classify (fuel + 1) (speechRunState p acc (f ++ rest)) =
      ((true, some (acc ++ [f]).flatten),
       { isSpeaking := false, speechBuffer := [], speechSamples := 0,
         silenceSamples := 0, pendingAudio := rest, processingLock := false,
         consecutiveSpeech := 0, consecutiveSilence := 0 }, 1) := by
  have hCS : CHUNK_SIZE = 512 := rfl
  have hguard : CHUNK_SIZE ≤ (speechRunState p acc (f ++ rest)).pendingAudio.length := by
    simp only [speechRunState, List.length_append]
    omega
  have htake : (speechRunState p acc (f ++ rest)).pendingAudio.take CHUNK_SIZE = f := by
    simp only [speechRunState]
    exact List.take_left' hflen
  have hdrop : (speechRunState p acc (f ++ rest)).pendingAudio.drop CHUNK_SIZE = rest := by
    simp only [speechRunState]
    exact List.drop_left' hflen
  rw [vadLoopFuel, if_pos hguard, htake, hdrop]
  rw [if_neg (show ¬ quietOf f = true by simp [hqf]), if_pos hcf]
  simp only [speechRunState]
  have hlen1 : (acc ++ [f]).length = acc.length + 1 := by simp
  have hmul : CHUNK_SIZE * (acc.length + 1) = CHUNK_SIZE * acc.length + CHUNK_SIZE := by
    ring
  have hmemlen : ∀ g ∈ acc ++ [f], g.length = CHUNK_SIZE := by
    intro g hg
    rcases List.mem_append.mp hg with h | h
    · exact hacc g h
    · simp only [List.mem_singleton] at h
      subst h
      exact hflen
  have hsumAcc : (List.map List.length acc).sum = CHUNK_SIZE * acc.length :=
    sumLen acc hacc
  have hmaxp : p.maxSpeechSamples ≤ (List.map List.length acc).sum + f.length := by
    rw [hsumAcc, hflen]
    omega
  have hfl : ((acc ++ [f]).flatten).length = CHUNK_SIZE * (acc.length + 1) := by
    rw [flattenLen _ hmemlen, hlen1]
  have hbytesn : ¬ 2 * ((acc ++ [f]).flatten).length < p.minSpeechBytes := by
    rw [hfl]
    omega
  have hne : acc ++ [f] ≠ [] := by simp
  have hmaxp2 : p.maxSpeechSamples ≤ CHUNK_SIZE * acc.length + f.length := by
    rw [hflen]
    omega
  have hbytesn2 : ¬ 2 * (CHUNK_SIZE * acc.length + f.length) < p.minSpeechBytes := by
    rw [hflen]
    omega
  by_cases hb : minConsecutiveSpeech ≤ acc.length ∧
      p.minSpeechSamples ≤ CHUNK_SIZE * acc.length
  · simp [speechRunState, hlen1, hmul, hb.1, hb.2, hsp1,
      show p.minSpeechSamples ≤ CHUNK_SIZE * acc.length + CHUNK_SIZE from by omega,
      hsumAcc, hmaxp, hmaxp2, getSpeechBytes, hne, hbytesn, hbytesn2]
  · simp [speechRunState, hlen1, hmul, hb, hsp1,
      show p.minSpeechSamples ≤ CHUNK_SIZE * acc.length + CHUNK_SIZE from by omega,
      hsumAcc, hmaxp, hmaxp2, getSpeechBytes, hne, hbytesn, hbytesn2]

/-- A run of speech-classified frames whose buffered total stays below
the maximum: every frame is buffered (one classifier invocation each) and
the loop continues on the remaining queue with the closed-form
`speechRunState`. -/
theorem speechRun (p : VADParams) (quietOf classify : List Int → Bool) :
    ∀ (fs : List (List Int)) (tail : List Int) (fuel : Nat) (acc : List (List Int)),
      (∀ f ∈ fs, f.length = CHUNK_SIZE) →
      (∀ f ∈ fs, quietOf f = false) →
      (∀ f ∈ fs, classify f = true) →
      (∀ g ∈ acc, g.length = CHUNK_SIZE) →
      CHUNK_SIZE * (acc.length + fs.length) < p.maxSpeechSamples →
      (fs.flatten ++ tail).length ≤ fuel →
      ∃ fuel', tail.length ≤ fuel' ∧
        vadLoopFuel p quietOf classify fuel
            (speechRunState p acc (fs.flatten ++ tail)) =
          ((vadLoopFuel p quietOf classify fuel'
              (speechRunState p (acc ++ fs) tail)).1,
           (vadLoopFuel p quietOf classify fuel'
              (speechRunState p (acc ++ fs) tail)).2.1,
           fs.length + (vadLoopFuel p quietOf classify fuel'
              (speechRunState p (acc ++ fs) tail)).2.2) := by
  intro fs
  induction fs with
  | nil =>
    intro tail fuel acc hlen hq hc hacc hmax hfuel
    refine ⟨fuel, by simpa using hfuel, ?_⟩
    simp
  | cons f fs' ih =>
    intro tail fuel acc hlen hq hc hacc hmax hfuel
    have hCS : CHUNK_SIZE = 512 := rfl
    have hflen : f.length = CHUNK_SIZE := hlen f (by simp)
    have hplen : ((f :: fs').flatten ++ tail).length = f.length + (fs'.flatten ++ tail).length := by
      simp [List.flatten_cons]
    cases fuel with
    | zero => omega
    | succ fuel =>
      have hps : speechRunState p acc ((f :: fs').flatten ++ tail) =
          speechRunState p acc (f ++ (fs'.flatten ++ tail)) := by
        simp [speechRunState, List.flatten_cons, List.append_assoc]
      rw [hps, speechStep p quietOf classify acc f (fs'.flatten ++ tail) fuel hflen
        (hq f (by simp)) (hc f (by simp)) hacc (by simp [hCS] at hmax ⊢; omega)]
      obtain ⟨fuel', h1, h2⟩ := ih tail fuel (acc ++ [f])
        (fun g hg => hlen g (by simp [hg]))
        (fun g hg => hq g (by simp [hg]))
        (fun g hg => hc g (by simp [hg]))
        (by
          intro g hg
          rcases List.mem_append.mp hg with h | h
          · exact hacc g h
          · simp only [List.mem_singleton] at h
            subst h
            exact hflen)
        (by simp [hCS] at hmax ⊢; omega)
        (by omega)
      rw [h2]
      refine ⟨fuel', h1, ?_⟩
      rw [List.append_cons acc f fs']
      simp only [List.length_cons, Prod.mk.injEq, true_and, and_true]
      omega

/-- C6 amended: the max-duration force-close is checked only on
speech-classified frames.  Feeding continuous speech-classified frames
from the reset state: while the buffered total stays below
`max_speech_samples` no segment is returned, and a single call whose
frames first reach the maximum on its last frame closes the segment at
exactly that frame, returning all buffered audio — but a quiet or
silence-classified frame can push the buffer to or past the maximum
without closing (see `max_duration_quiet_frame_counterexample`). -/
theorem max_duration_close_on_speech_frames (p : VADParams)
    (quietOf classify : List Int → Bool) (frames : List (List Int))
    (hlen : ∀ f ∈ frames, f.length = CHUNK_SIZE)
    (hq : ∀ f ∈ frames, quietOf f = false)
    (hc : ∀ f ∈ frames, classify f = true) :
    (CHUNK_SIZE * frames.length < p.maxSpeechSamples →
      (process_audio p quietOf classify VADState.reset frames.flatten).1 =
        (false, none)) ∧
    (p.maxSpeechSamples ≤ CHUNK_SIZE * frames.length →
      CHUNK_SIZE * (frames.length - 1) < p.maxSpeechSamples →
      minConsecutiveSpeech ≤ frames.length →
      p.minSpeechSamples ≤ p.maxSpeechSamples →
      p.minSpeechBytes ≤ 2 * (CHUNK_SIZE * frames.length) →
      (process_audio p quietOf classify VADState.reset frames.flatten).1 =
        (true, some frames.flatten)) := by
  have hCS : CHUNK_SIZE = 512 := rfl
  have hreset : ∀ l : List Int,
      ({ VADState.reset with
          pendingAudio := VADState.reset.pendingAudio ++ l } : VADState) =
        speechRunState p [] l := by
    intro l
    simp [VADState.reset, speechRunState, minConsecutiveSpeech]
  constructor
  · intro hmax
    unfold process_audio
    rw [if_neg (by simp [VADState.reset])]
    unfold vadLoop
    rw [hreset frames.flatten]
    have hx : frames.flatten = frames.flatten ++ [] := by simp
    rw [show speechRunState p [] frames.flatten =
        speechRunState p [] (frames.flatten ++ []) from by rw [← hx]]
    obtain ⟨fuel', h1, h2⟩ := speechRun p quietOf classify frames [] _ []
      hlen hq hc (by simp) (by simpa using hmax) le_rfl
    rw [show (speechRunState p [] (frames.flatten ++ [])).pendingAudio.length =
      (frames.flatten ++ []).length from rfl]
    rw [h2]
    have hbase : vadLoopFuel p quietOf classify fuel'
        (speechRunState p ([] ++ frames) []) =
        ((false, none), speechRunState p ([] ++ frames) [], 0) := by
      cases fuel' with
      | zero => rfl
      | succ n =>
        rw [vadLoopFuel, if_neg]
        simp [speechRunState, CHUNK_SIZE]
    rw [hbase]
  · intro hub hlb h3 hmin hbytes
    have hne : frames ≠ [] := by
      intro h
      subst h
      simp [minConsecutiveSpeech] at h3
    have hn1 : 1 ≤ frames.length := by
      cases frames with
      | nil => exact absurd rfl hne
      | cons a l => simp
    have hsplit : frames.dropLast ++ [frames.getLast hne] = frames :=
      List.dropLast_concat_getLast hne
    have hflat : frames.flatten =
        frames.dropLast.flatten ++ frames.getLast hne := by
      conv_lhs => rw [← hsplit]
      simp
    have hdl : frames.dropLast.length = frames.length - 1 :=
      List.length_dropLast frames
    have hlast : (frames.getLast hne).length = CHUNK_SIZE :=
      hlen _ (List.getLast_mem hne)
    unfold process_audio
    rw [if_neg (by simp [VADState.reset])]
    unfold vadLoop
    rw [hreset frames.flatten]
    rw [show speechRunState p [] frames.flatten =
        speechRunState p [] (frames.dropLast.flatten ++ frames.getLast hne)
      from by rw [← hflat]]
    obtain ⟨fuel', h1, h2⟩ := speechRun p quietOf classify frames.dropLast
      (frames.getLast hne) _ []
      (fun g hg => hlen g (List.dropLast_subset frames hg))
      (fun g hg => hq g (List.dropLast_subset frames hg))
      (fun g hg => hc g (List.dropLast_subset frames hg))
      (by simp)
      (by simp only [List.length_nil, Nat.zero_add, hdl, hCS] at *; omega)
      le_rfl
    rw [show (speechRunState p []
        (frames.dropLast.flatten ++ frames.getLast hne)).pendingAudio.length =
      (frames.dropLast.flatten ++ frames.getLast hne).length from rfl]
    rw [h2]
    obtain ⟨k, rfl⟩ : ∃ k, fuel' = k + 1 := by
      refine ⟨fuel' - 1, ?_⟩
      rw [hlast, hCS] at h1
      omega
    rw [show speechRunState p ([] ++ frames.dropLast) (frames.getLast hne) =
        speechRunState p ([] ++ frames.dropLast) (frames.getLast hne ++ [])
      from by simp]
    rw [speechStepClose p quietOf classify ([] ++ frames.dropLast)
      (frames.getLast hne) [] k hlast
      (hq _ (List.getLast_mem hne)) (hc _ (List.getLast_mem hne))
      (fun g hg => hlen g (List.dropLast_subset frames (by simpa using hg)))
      (by simp only [List.nil_append, hdl]; omega)
      (by simp only [List.nil_append, hdl, hCS] at *; omega)
      (by simp only [List.nil_append, hdl, hCS] at *; omega)
      (by simp only [List.nil_append, hdl, hCS] at *; omega)]
    rw [show ([] ++ frames.dropLast) ++ [frames.getLast hne] = frames from by
      simpa using hsplit]

/-- Witness for C6: with a 1536-sample maximum (three frames), two
continuous speech frames return nothing and a three-frame call closes
exactly at the boundary, returning all 1536 samples. -/
theorem max_duration_close_on_speech_frames_witness :
    (process_audio pMax3Frames quietNever classifyAll VADState.reset
        ([sFrame, sFrame, sFrame].flatten)).1 =
      (true, some ([sFrame, sFrame, sFrame].flatten)) ∧
    (process_audio pMax3Frames quietNever classifyAll VADState.reset
        ([sFrame, sFrame].flatten)).1 = (false, none) :=
  ⟨(max_duration_close_on_speech_frames pMax3Frames quietNever classifyAll
      [sFrame, sFrame, sFrame] (by decide) (by decide) (by decide)).2
      (by decide) (by decide) (by decide) (by decide) (by decide),
   (max_duration_close_on_speech_frames pMax3Frames quietNever classifyAll
      [sFrame, sFrame] (by decide) (by decide) (by decide)).1 (by decide)⟩
